import Mathlib

/-!
# Anchor reader: a shallow embedding of `anchor.js`

The reader shows one word at a time from a loaded text.  This file embeds the
state of `anchor.js` (the module-level variables, the `settings` object, the
`anchor-state` entry of `localStorage` and the set of pending `setTimeout`
callbacks) as a record, and each function of the script as a function on that
record.

Conventions of the embedding.

* The two indices of the cursor are embedded as `Int`.  A number held in a
  field of `settings` is a `JsNumber`: a finite number, embedded as an integer,
  or `NaN`, `Infinity` or `-Infinity`; such a field can also hold `null`
  (`NumField`).
* JavaScript strings are embedded as `String`, a sequence of code points; the
  whitespace class of the regular expression `\s` and of
  `String.prototype.trim` is `isWhiteSpace`, all of whose members are single
  UTF-16 code units.
* A loop that may fail to terminate is embedded with a fuel argument and
  returns `none` when the fuel is used up.
* A JSON text is embedded as the value that `JSON.parse` gives for it:
  `localStorage` holds either a text that does not parse, or the parsed value.
  `JSON.stringify` writes a finite number as itself and `NaN`, `Infinity` and
  `-Infinity` as `null` (`jsonNumber`).
-/

namespace Anchor

/-! ## Text: whitespace, `replace(/\s+/g, " ")`, `trim`, `split(" ")` -/

/-- The code points matched by `\s` in a JavaScript regular expression, which
are also the code points removed by `trim`: the ECMAScript `WhiteSpace` and
`LineTerminator` productions. -/
def isWhiteSpace (c : Char) : Bool :=
  let n := c.toNat
  n == 0x09 || n == 0x0A || n == 0x0B || n == 0x0C || n == 0x0D || n == 0x20 ||
  n == 0xA0 || n == 0x1680 || (0x2000 ≤ n && n ≤ 0x200A) || n == 0x2028 ||
  n == 0x2029 || n == 0x202F || n == 0x205F || n == 0x3000 || n == 0xFEFF

/-- The scan behind `s.replace(/\s+/g, " ")`: every maximal run of whitespace
is replaced by one space.  `inRun` tells whether the previous character was
part of a run that has already produced its space. -/
def replaceRuns : Bool → List Char → List Char
  | _, [] => []
  | inRun, c :: cs =>
    if isWhiteSpace c then
      if inRun then replaceRuns true cs else ' ' :: replaceRuns true cs
    else c :: replaceRuns false cs

/-- The JavaScript `s.trim()` on a list of characters. -/
def trimChars (cs : List Char) : List Char :=
  ((cs.dropWhile isWhiteSpace).reverse.dropWhile isWhiteSpace).reverse

/-- The JavaScript `s.split(" ")` on a list of characters: the pieces between
consecutive spaces.  The result is never empty: the empty string splits into
one empty piece. -/
def splitOnSpace : List Char → List (List Char)
  | [] => [[]]
  | c :: cs =>
    if c = ' ' then [] :: splitOnSpace cs
    else
      match splitOnSpace cs with
      | [] => [[c]]
      | w :: ws => (c :: w) :: ws

/-- The expression `text.replace(/\s+/g, " ").trim()` of `loadText`. -/
def cleanText (text : String) : List Char :=
  trimChars (replaceRuns false text.data)

/-- The expression `cleaned.split(" ")` of `loadText`, from the text. -/
def textWords (text : String) : List String :=
  (splitOnSpace (cleanText text)).map String.mk

/-! ## Sections -/

/-- The JavaScript `xs.slice(start, stop)` for integer arguments: a negative
argument counts from the end, and both are clamped to the array. -/
def slice {α : Type} (xs : List α) (start stop : Int) : List α :=
  let len : Int := xs.length
  let k : Int := if start < 0 then max (len + start) 0 else min start len
  let fin : Int := if stop < 0 then max (len + stop) 0 else min stop len
  (xs.drop k.toNat).take (fin - k).toNat

/-- The `for` loop of `splitIntoSections`: `i` is the loop variable and
`result` the array built so far.  One unit of fuel is used for each evaluation
of the loop condition. -/
def splitLoop {α : Type} (allWords : List α) (size : Int) :
    Nat → Int → List (List α) → Option (List (List α))
  | 0, _, _ => none
  | fuel + 1, i, result =>
    if i < (allWords.length : Int) then
      splitLoop allWords size fuel (i + size) (result ++ [slice allWords i (i + size)])
    else some result

/-- The function `splitIntoSections(allWords, size)` for an integer size
(`splitIntoSectionsNumber` covers the other values).  The loop condition is
evaluated at most `allWords.length + 1` times when the loop terminates, so the
result is `none` exactly when the loop of the script does not terminate
(`splitIntoSections_eq_none_iff`). -/
def splitIntoSections {α : Type} (allWords : List α) (size : Int) : Option (List (List α)) :=
  splitLoop allWords size (allWords.length + 1) 0 []

/-! ## Numbers of the settings -/

/-- A JavaScript number as a field of `settings` can hold it: a finite number,
embedded as an integer, or one of `NaN`, `Infinity`, `-Infinity`. -/
inductive JsNumber where
  | int (n : Int)
  | nan
  | posInf
  | negInf
  deriving DecidableEq, Repr

/-- The value of a numeric field of `settings`: a number, or `null`, which is
what `loadSettings` assigns when the stored text has `null` for the field. -/
inductive NumField where
  | number (x : JsNumber)
  | null
  deriving DecidableEq, Repr

/-- The abstract operation `ToNumber` on the value of a numeric field: `null`
converts to `0`. -/
def toNumber : NumField → JsNumber
  | NumField.number x => x
  | NumField.null => JsNumber.int 0

/-- The JavaScript `a + b` on numbers. -/
def addNumber : JsNumber → JsNumber → JsNumber
  | JsNumber.int a, JsNumber.int b => JsNumber.int (a + b)
  | JsNumber.int _, JsNumber.nan => JsNumber.nan
  | JsNumber.int _, JsNumber.posInf => JsNumber.posInf
  | JsNumber.int _, JsNumber.negInf => JsNumber.negInf
  | JsNumber.nan, _ => JsNumber.nan
  | JsNumber.posInf, JsNumber.int _ => JsNumber.posInf
  | JsNumber.posInf, JsNumber.nan => JsNumber.nan
  | JsNumber.posInf, JsNumber.posInf => JsNumber.posInf
  | JsNumber.posInf, JsNumber.negInf => JsNumber.nan
  | JsNumber.negInf, JsNumber.int _ => JsNumber.negInf
  | JsNumber.negInf, JsNumber.nan => JsNumber.nan
  | JsNumber.negInf, JsNumber.posInf => JsNumber.nan
  | JsNumber.negInf, JsNumber.negInf => JsNumber.negInf

/-- The JavaScript `i < n` for a number `i` and an array length `n`: a
comparison with `NaN` is false. -/
def ltLength : JsNumber → Nat → Bool
  | JsNumber.int i, n => decide (i < (n : Int))
  | JsNumber.nan, _ => false
  | JsNumber.posInf, _ => false
  | JsNumber.negInf, _ => true

/-- The position that `slice` computes from an argument and the length `len`
of the array: the argument is converted by `ToIntegerOrInfinity` (`NaN` gives
`0`), a negative one counts from the end, and the result is clamped to
`0 .. len`. -/
def clampIndex (len : Int) : JsNumber → Int
  | JsNumber.int a => if a < 0 then max (len + a) 0 else min a len
  | JsNumber.nan => min 0 len
  | JsNumber.posInf => len
  | JsNumber.negInf => 0

/-- The JavaScript `xs.slice(start, stop)` for numbers. -/
def sliceNumber {α : Type} (xs : List α) (start stop : JsNumber) : List α :=
  let len : Int := xs.length
  let k : Int := clampIndex len start
  let fin : Int := clampIndex len stop
  (xs.drop k.toNat).take (fin - k).toNat

/-- The `for` loop of `splitIntoSections` for a size that is any number: `i`
is the loop variable, which leaves the integers when the size is not finite.
For an integer size this is `splitLoop` (`splitLoopNumber_int`). -/
def splitLoopNumber {α : Type} (allWords : List α) (size : JsNumber) :
    Nat → JsNumber → List (List α) → Option (List (List α))
  | 0, _, _ => none
  | fuel + 1, i, result =>
    if ltLength i allWords.length then
      splitLoopNumber allWords size fuel (addNumber i size)
        (result ++ [sliceNumber allWords i (addNumber i size)])
    else some result

/-- The function `splitIntoSections(allWords, size)` for the value of
`settings.sectionSize`.  A `null` size enters `i += size` and `i + size` as
`0`.  For an integer size this is `splitIntoSections`
(`splitIntoSectionsNumber_int`); for `NaN` and `Infinity` the loop ends after
one section, for `-Infinity` it does not end. -/
def splitIntoSectionsNumber {α : Type} (allWords : List α) (size : NumField) :
    Option (List (List α)) :=
  splitLoopNumber allWords (toNumber size) (allWords.length + 1) (JsNumber.int 0) []

/-- The number that `JSON.parse` reads back from what `JSON.stringify` writes
for the value of a numeric field: a finite number is written as itself;
`NaN`, `Infinity`, `-Infinity` and `null` are written as `null`. -/
def jsonNumber : NumField → NumField
  | NumField.number (JsNumber.int n) => NumField.number (JsNumber.int n)
  | NumField.number JsNumber.nan => NumField.null
  | NumField.number JsNumber.posInf => NumField.null
  | NumField.number JsNumber.negInf => NumField.null
  | NumField.null => NumField.null

/-! ## State -/

/-- The three values of the variable `mode`. -/
inductive Mode where
  | reading
  | context
  | help
  deriving DecidableEq, Repr

/-- The object `settings`: the three text fields and the flag at their
declared types, the two numeric fields as any number or `null`. -/
structure Settings where
  speedPreset : String
  speedMs : NumField
  theme : String
  anchorColor : String
  sectionSize : NumField
  resumeEnabled : Bool
  deriving DecidableEq, Repr

/-- The initial value of `settings`. -/
def defaultSettings : Settings :=
  { speedPreset := "medium", speedMs := NumField.number (JsNumber.int 250), theme := "dark",
    anchorColor := "teal", sectionSize := NumField.number (JsNumber.int 1500),
    resumeEnabled := true }

/-- The `settings` member of a parsed `anchor-state` object: each of the six
keys is present or not. -/
structure SavedSettings where
  speedPreset : Option String
  speedMs : Option NumField
  theme : Option String
  anchorColor : Option String
  sectionSize : Option NumField
  resumeEnabled : Option Bool
  deriving DecidableEq, Repr

/-- The `position` member of a parsed `anchor-state` object. -/
structure SavedPosition where
  currentSectionIndex : Option Int
  currentWordIndex : Option Int
  deriving DecidableEq, Repr

/-- A parsed `anchor-state` object: each of its two members is present or not. -/
structure SavedData where
  settings : Option SavedSettings
  position : Option SavedPosition
  deriving DecidableEq, Repr

/-- The text stored under the key `anchor-state`: the empty text or a text
for which `JSON.parse` throws or returns `null` (`malformed`), or a text that
parses to another value (`json`), of which `loadSettings` reads the members
`settings` and `position`; a member that is missing or falsy is `none`. -/
inductive StoredText where
  | malformed
  | json (data : SavedData)
  deriving DecidableEq, Repr

/-- The state of the reader: the module-level variables of `anchor.js`, the
text of the two elements the modelled functions write to, the `anchor-state`
entry of `localStorage` (`none` when `getItem` returns `null`) and the number
of `setTimeout(nextWord, _)` callbacks that are scheduled and have not run. -/
structure AppState where
  words : List String
  sections : List (List String)
  currentSectionIndex : Int
  currentWordIndex : Int
  isPlaying : Bool
  mode : Mode
  showControls : Bool
  settings : Settings
  wordEl : String
  playPauseBtn : String
  storage : Option StoredText
  pending : Nat
  deriving DecidableEq, Repr

/-- The state when the script has been evaluated and `init` has not run.  The
texts of the two elements come from the markup, which is not part of the
script; they are taken to be empty. -/
def initialState (storage : Option StoredText) : AppState :=
  { words := [], sections := [], currentSectionIndex := 0, currentWordIndex := 0,
    isPlaying := false, mode := Mode.reading, showControls := false,
    settings := defaultSettings, wordEl := "", playPauseBtn := "",
    storage := storage, pending := 0 }

/-! ## Loading text and rendering -/

/-- The function `loadText(text)`; `none` when `splitIntoSections` does not
terminate. -/
def loadText (s : AppState) (text : String) : Option AppState :=
  let words := textWords text
  match splitIntoSectionsNumber words s.settings.sectionSize with
  | none => none
  | some sections =>
    some { s with words := words, sections := sections,
                  currentSectionIndex := 0, currentWordIndex := 0 }

/-- The JavaScript `xs[i]` for an integer `i`: `none` stands for `undefined`. -/
def index {α : Type} (xs : List α) (i : Int) : Option α :=
  if i < 0 then none else xs.get? i.toNat

/-- The function `getCurrentSectionWords()`: `sections[currentSectionIndex] || []`. -/
def getCurrentSectionWords (s : AppState) : List String :=
  (index s.sections s.currentSectionIndex).getD []

/-- The function `renderWord()`: `sectionWords[currentWordIndex] || ""`. -/
def renderWord (s : AppState) : AppState :=
  { s with wordEl := (index (getCurrentSectionWords s) s.currentWordIndex).getD "" }

/-! ## Settings and the saved position -/

/-- The function `mapPresetToDelay(preset)`. -/
def mapPresetToDelay (preset : String) : Int :=
  if preset = "slow" then 500
  else if preset = "medium" then 250
  else if preset = "fast" then 150
  else if preset = "storm" then 80
  else 250

/-- The function `applySettings()`: the class list of the body is not part of
the state, so the effect is the assignment to `settings.speedMs`. -/
def applySettings (s : AppState) : AppState :=
  { s with settings :=
      { s.settings with
        speedMs := NumField.number (JsNumber.int (mapPresetToDelay s.settings.speedPreset)) } }

/-- The value that `JSON.parse` gives for the text
`JSON.stringify({ settings, position })`: all keys are present, the texts, the
flag and the two integers of the position are read back as written, and the
two numeric fields as `jsonNumber` tells. -/
def stringify (settings : Settings) (currentSectionIndex currentWordIndex : Int) : StoredText :=
  StoredText.json
    { settings := some
        { speedPreset := some settings.speedPreset,
          speedMs := some (jsonNumber settings.speedMs),
          theme := some settings.theme, anchorColor := some settings.anchorColor,
          sectionSize := some (jsonNumber settings.sectionSize),
          resumeEnabled := some settings.resumeEnabled },
      position := some
        { currentSectionIndex := some currentSectionIndex,
          currentWordIndex := some currentWordIndex } }

/-- The function `saveSettings()`. -/
def saveSettings (s : AppState) : AppState :=
  { s with storage := some (stringify s.settings s.currentSectionIndex s.currentWordIndex) }

/-- The call `Object.assign(settings, data.settings)`: each key present in the
source overwrites the field of the target. -/
def assignSettings (target : Settings) (source : SavedSettings) : Settings :=
  { speedPreset := source.speedPreset.getD target.speedPreset,
    speedMs := source.speedMs.getD target.speedMs,
    theme := source.theme.getD target.theme,
    anchorColor := source.anchorColor.getD target.anchorColor,
    sectionSize := source.sectionSize.getD target.sectionSize,
    resumeEnabled := source.resumeEnabled.getD target.resumeEnabled }

/-- The function `loadSettings()`.  `x || 0` of an absent or zero `x` is `0`. -/
def loadSettings (s : AppState) : AppState :=
  match s.storage with
  | none => s
  | some StoredText.malformed => s
  | some (StoredText.json data) =>
    let s1 : AppState :=
      match data.settings with
      | some saved => { s with settings := assignSettings s.settings saved }
      | none => s
    match data.position with
    | some position =>
      if s1.settings.resumeEnabled then
        { s1 with currentSectionIndex := position.currentSectionIndex.getD 0,
                  currentWordIndex := position.currentWordIndex.getD 0 }
      else s1
    | none => s1

/-- The function `savePosition()`. -/
def savePosition (s : AppState) : AppState :=
  if !s.settings.resumeEnabled then s else saveSettings s

/-! ## Playback -/

/-- The function `scheduleNext()`: one more `nextWord` callback is pending. -/
def scheduleNext (s : AppState) : AppState :=
  { s with pending := s.pending + 1 }

/-- The function `nextWord()`. -/
def nextWord (s : AppState) : AppState :=
  if !s.isPlaying || s.mode != Mode.reading then s
  else
    let sectionWords := getCurrentSectionWords s
    let s1 : AppState :=
      if s.currentWordIndex < (sectionWords.length : Int) - 1 then
        scheduleNext (renderWord { s with currentWordIndex := s.currentWordIndex + 1 })
      else { s with isPlaying := false }
    savePosition s1

/-- The function `prevWord()`. -/
def prevWord (s : AppState) : AppState :=
  if s.currentWordIndex > 0 then
    savePosition (renderWord { s with currentWordIndex := s.currentWordIndex - 1 })
  else s

/-- The function `togglePlayPause()`. -/
def togglePlayPause (s : AppState) : AppState :=
  if s.mode != Mode.reading then s
  else
    let s1 : AppState :=
      { s with isPlaying := !s.isPlaying,
               playPauseBtn := if !s.isPlaying then "⏸" else "▶" }
    if s1.isPlaying then scheduleNext s1 else s1

/-- The function `pauseStream()`. -/
def pauseStream (s : AppState) : AppState :=
  { s with isPlaying := false, playPauseBtn := "▶" }

/-- The function `closeContextView()`. -/
def closeContextView (s : AppState) : AppState :=
  { s with mode := Mode.reading }

/-- The function `closeHelp()`. -/
def closeHelp (s : AppState) : AppState :=
  { s with mode := Mode.reading }

/-- The click listener that `renderContextBody` attaches to the word at
position `idx` of the section. -/
def wordClick (idx : Nat) (s : AppState) : AppState :=
  let s1 : AppState := { s with currentWordIndex := (idx : Int) }
  let s2 := renderWord (closeContextView s1)
  scheduleNext { s2 with isPlaying := true, playPauseBtn := "⏸" }

/-- The click listener of `backBtn` (and the `ArrowLeft` key). -/
def backClick (s : AppState) : AppState :=
  prevWord (pauseStream s)

/-- The click listener of `forwardBtn` (and the `ArrowRight` key). -/
def forwardClick (s : AppState) : AppState :=
  let s1 := pauseStream s
  let sectionWords := getCurrentSectionWords s1
  if s1.currentWordIndex < (sectionWords.length : Int) - 1 then
    savePosition (renderWord { s1 with currentWordIndex := s1.currentWordIndex + 1 })
  else s1

/-! ## Help topics -/

/-- The table `helpTexts`; a key that is not in the table gives `none`
(`undefined` in the script). -/
def helpTexts (key : String) : Option String :=
  if key = "context" then some
    "\nTap the top edge to open Context View\nContext View shows the full Section\nYour current word is highlighted\nTap any word to jump to that point\nTap the top edge again to close Context View\n"
  else if key = "navigation" then some
    "\nTap anywhere on the screen to pause\nBottom controls appear when paused\nPlay starts the one word stream\nPause stops the stream\nBack moves to the previous word\nForward moves to the next word\nSpeed slider adjusts instantly\nSection list appears when paused\n"
  else if key = "sections" then some
    "\nLong documents are split into Sections\nSections are labeled Section 1 Section 2 Section 3\nEnd of Section shows Next section\nResume returns to the exact word you left off\n"
  else if key = "jumping" then some
    "\nTap any word in Context View to jump\nTap a heading to jump to the first word after it\nTap whitespace to do nothing\nTap the highlighted word to close Context View\n"
  else if key = "themes" then some
    "\nTheme toggle switches between dark and light\nAnchor color selector changes the highlight color\nYour theme and anchor color are saved automatically\n"
  else if key = "bookmarklet" then some
    "\nClick READ WITH ANCHOR on any webpage\nThe reader opens with the text already loaded\nNo copy or paste is required\nBookmarklet works on most pages\nSome sites block extraction\n"
  else if key = "troubleshooting" then some
    "\nIf text looks messy paste mode is cleaner\nIf the bookmarklet fails the site may block scripts\nIf resume feels off clear saved position in settings\nIf controls disappear tap the bottom edge\n"
  else none

/-- The function `loadHelpTopic(key)`; `none` when `loadText` does not
terminate. -/
def loadHelpTopic (key : String) (s : AppState) : Option AppState :=
  let text := (helpTexts key).getD ""
  match loadText s text with
  | none => none
  | some s1 =>
    let s2 := closeHelp s1
    let s3 : AppState :=
      { s2 with mode := Mode.reading, isPlaying := true, playPauseBtn := "⏸" }
    some (scheduleNext (renderWord s3))

/-! ## Startup -/

/-- The text that `init` loads. -/
def welcomeText : String :=
  "Welcome to Anchor This is a minimal one word at a time reader Tap the anchor icon for help"

/-- The part of `attachEvents()` that changes the state: the receiver of the
text handed over in the URL fragment.  `hash` is the value of
`decodeURIComponent(location.hash.slice(1))`; the listeners that the function
attaches are the functions of this file. -/
def attachEvents (s : AppState) (hash : String) : Option AppState :=
  if hash ≠ "" then
    match loadText s hash with
    | none => none
    | some s1 => some (renderWord s1)
  else some s

/-- The function `init()`, run once when the document has loaded: `storage` is
the `anchor-state` entry of `localStorage` and `hash` the decoded URL fragment.
The result is `none` when `init` does not complete. -/
def init (storage : Option StoredText) (hash : String) : Option AppState :=
  let s1 := loadSettings (initialState storage)
  let s2 := applySettings s1
  match attachEvents s2 hash with
  | none => none
  | some s3 =>
    match loadText s3 welcomeText with
    | none => none
    | some s4 => some (renderWord s4)

/-! ## Events -/

/-- The events of the playback loop: a click on the play or pause button, a
click on a word of Context View, a click on a help topic, and the firing of
one pending `nextWord` callback. -/
inductive Event where
  | togglePlayPause
  | wordClick (idx : Nat)
  | loadHelpTopic (key : String)
  | timerFire
  deriving DecidableEq, Repr

/-- One event.  A timer can fire only when a callback is pending: the firing
removes it from the pending callbacks and runs `nextWord`.  `none` when the
event cannot occur or its handler does not terminate. -/
def step (s : AppState) : Event → Option AppState
  | Event.togglePlayPause => some (togglePlayPause s)
  | Event.wordClick idx => some (wordClick idx s)
  | Event.loadHelpTopic key => loadHelpTopic key s
  | Event.timerFire =>
    if s.pending = 0 then none
    else some (nextWord { s with pending := s.pending - 1 })

/-- A sequence of events, from the first to the last. -/
def run (s : AppState) : List Event → Option AppState
  | [] => some s
  | e :: es =>
    match step s e with
    | none => none
    | some s1 => run s1 es

/-! ## Predicates on states and runs -/

/-- The cursor indexes an existing word of an existing section:
`sections[currentSectionIndex][currentWordIndex]` is an element. -/
def cursorValid (s : AppState) : Prop :=
  0 ≤ s.currentSectionIndex ∧ s.currentSectionIndex < (s.sections.length : Int) ∧
  0 ≤ s.currentWordIndex ∧ s.currentWordIndex < ((getCurrentSectionWords s).length : Int)

instance (s : AppState) : Decidable (cursorValid s) := by
  unfold cursorValid
  infer_instance

/-- The event schedules a `nextWord` callback when it occurs in state `s`: a
toggle from paused to playing in reading mode, a click on a word, a click on a
help topic. -/
def startsPlayback (s : AppState) : Event → Bool
  | Event.togglePlayPause => s.mode == Mode.reading && !s.isPlaying
  | Event.wordClick _ => true
  | Event.loadHelpTopic _ => true
  | Event.timerFire => false

/-- In the run of `evs` from `s`, every event that starts playback occurs in a
state with no pending callback. -/
def spaced (s : AppState) : List Event → Bool
  | [] => true
  | e :: es =>
    (!startsPlayback s e || s.pending == 0) &&
      match step s e with
      | none => true
      | some s1 => spaced s1 es

/-- The words of the welcome text. -/
def welcomeWords : List String :=
  ["Welcome", "to", "Anchor", "This", "is", "a", "minimal", "one", "word", "at",
   "a", "time", "reader", "Tap", "the", "anchor", "icon", "for", "help"]

/-- The state after `init` with an empty storage and no URL fragment. -/
def startup : AppState :=
  { initialState none with
    words := welcomeWords, sections := [welcomeWords], wordEl := "Welcome" }

/-- A state in which playback is on, with three words in sections of size 2. -/
def samplePlaying : AppState :=
  { initialState none with
    words := ["a", "b", "c"], sections := [["a", "b"], ["c"]], isPlaying := true,
    settings := { defaultSettings with sectionSize := NumField.number (JsNumber.int 2) } }

/-- A state whose settings hold `NaN` as the delay and `Infinity` as the
section size, the other fields at their defaults. -/
def sampleNonFinite : AppState :=
  { initialState none with
    settings := { defaultSettings with
      speedMs := NumField.number JsNumber.nan,
      sectionSize := NumField.number JsNumber.posInf } }

/-! ## Lemmas on sections -/

theorem slice_natCast {α : Type} (xs : List α) (j S : Nat) :
    slice xs (j : Int) ((j : Int) + (S : Int)) = (xs.drop j).take S := by
  unfold slice
  have h1 : ¬ ((j : Int) < 0) := by omega
  have h2 : ¬ ((j : Int) + (S : Int) < 0) := by omega
  simp only [h1, h2, if_false]
  by_cases hj : j ≤ xs.length
  · have hk : (min (j : Int) (xs.length : Int)).toNat = j := by omega
    rw [hk, List.take_eq_take, List.length_drop]
    omega
  · have hk : xs.length ≤ (min (j : Int) (xs.length : Int)).toNat := by omega
    rw [List.drop_eq_nil_of_le hk, List.drop_eq_nil_of_le (by omega)]
    simp

theorem ceilDiv_step (n S : Nat) (hS : 0 < S) (hn : 0 < n) :
    (n + S - 1) / S = (n - S + S - 1) / S + 1 := by
  by_cases h : S ≤ n
  · have e : n + S - 1 = (n - S + S - 1) + S := by omega
    rw [e, Nat.add_div_right _ hS]
  · have e1 : n - S + S - 1 = S - 1 := by omega
    have e2 : n + S - 1 = (n - 1) + S := by omega
    rw [e1, e2, Nat.add_div_right _ hS, Nat.div_eq_of_lt (by omega), Nat.div_eq_of_lt (by omega)]

/-- The loop from position `j` with enough fuel: it returns, the sections it
adds concatenate to the words from `j` on, there are `ceil((L - j) / S)` of
them, and the `k`-th has `min S (L - j - k * S)` words. -/
theorem splitLoop_natCast {α : Type} (words : List α) (S : Nat) (hS : 0 < S) :
    ∀ (fuel j : Nat) (result : List (List α)), words.length - j < fuel →
      ∃ out, splitLoop words (S : Int) fuel (j : Int) result = some (result ++ out) ∧
        out.flatten = words.drop j ∧
        out.length = (words.length - j + S - 1) / S ∧
        ∀ (k : Nat) (h : k < out.length), out[k].length = min S (words.length - j - k * S) := by
  intro fuel
  induction fuel with
  | zero => intro j result h; omega
  | succ fuel ih =>
    intro j result h
    by_cases hj : j < words.length
    · have hlt : (j : Int) < (words.length : Int) := by omega
      obtain ⟨out, h1, h2, h3, h4⟩ :=
        ih (j + S) (result ++ [(words.drop j).take S]) (by omega)
      refine ⟨(words.drop j).take S :: out, ?_, ?_, ?_, ?_⟩
      · simp only [splitLoop, hlt, if_true, slice_natCast]
        have e : (j : Int) + (S : Int) = ((j + S : Nat) : Int) := by push_cast; rfl
        rw [e, h1]
        simp
      · rw [List.flatten_cons, h2, ← List.drop_drop, List.take_append_drop]
      · rw [List.length_cons, h3, ceilDiv_step (words.length - j) S hS (by omega)]
        have e : words.length - (j + S) = words.length - j - S := by omega
        rw [e]
      · intro k hk
        cases k with
        | zero =>
          simp only [List.getElem_cons_zero, List.length_take, List.length_drop]
          omega
        | succ k =>
          have hk2 : k < out.length := by simpa using hk
          rw [List.getElem_cons_succ, h4 k hk2]
          have e : words.length - (j + S) - k * S = words.length - j - (k + 1) * S := by
            rw [Nat.add_mul]; omega
          rw [e]
    · have hge : ¬ ((j : Int) < (words.length : Int)) := by omega
      refine ⟨[], ?_, ?_, ?_, ?_⟩
      · simp [splitLoop, hge]
      · rw [List.drop_eq_nil_of_le (by omega)]; rfl
      · have e : words.length - j + S - 1 = S - 1 := by omega
        rw [e, Nat.div_eq_of_lt (by omega)]; rfl
      · intro k hk; simp at hk

/-- More fuel does not change a result of the loop. -/
theorem splitLoop_fuel_mono {α : Type} (words : List α) (size : Int) :
    ∀ (fuel : Nat) (i : Int) (result out : List (List α)),
      splitLoop words size fuel i result = some out →
      ∀ fuel2 : Nat, fuel ≤ fuel2 → splitLoop words size fuel2 i result = some out := by
  intro fuel
  induction fuel with
  | zero => intro i result out h; simp [splitLoop] at h
  | succ fuel ih =>
    intro i result out h fuel2 hle
    obtain ⟨m, rfl⟩ : ∃ m, fuel2 = m + 1 := ⟨fuel2 - 1, by omega⟩
    by_cases hi : i < (words.length : Int)
    · simp only [splitLoop, hi, if_true] at h ⊢
      exact ih _ _ _ h m (by omega)
    · simp only [splitLoop, hi, if_false] at h ⊢
      exact h

/-- What `splitIntoSections` returns for a positive size, with the fuel of
the definition and with any larger fuel. -/
theorem splitIntoSections_spec {α : Type} (words : List α) (size : Int) (hsize : 0 < size) :
    ∃ secs, splitIntoSections words size = some secs ∧
      (∀ fuel : Nat, words.length < fuel → splitLoop words size fuel 0 [] = some secs) ∧
      secs.flatten = words ∧
      secs.length = (words.length + size.toNat - 1) / size.toNat ∧
      ∀ (k : Nat) (h : k < secs.length),
        secs[k].length = min size.toNat (words.length - k * size.toNat) := by
  have hS : 0 < size.toNat := by omega
  have hcast : ((size.toNat : Nat) : Int) = size := Int.toNat_of_nonneg (by omega)
  obtain ⟨out, h1, h2, h3, h4⟩ :=
    splitLoop_natCast words size.toNat hS (words.length + 1) 0 [] (by omega)
  rw [hcast] at h1
  refine ⟨out, by simpa [splitIntoSections] using h1, ?_, by simpa using h2, by simpa using h3,
    by simpa using h4⟩
  intro fuel hfuel
  exact splitLoop_fuel_mono words size (words.length + 1) 0 [] out
    (by simpa using h1) fuel (by omega)

/-- For a size that is not positive and a non-empty array the loop of
`splitIntoSections` never ends: no amount of fuel gives a result. -/
theorem splitLoop_diverges {α : Type} (words : List α) (size : Int) (hsize : size ≤ 0)
    (hwords : words ≠ []) :
    ∀ (fuel : Nat) (i : Int) (result : List (List α)), i ≤ 0 →
      splitLoop words size fuel i result = none := by
  have hlen : 0 < words.length := List.length_pos.mpr hwords
  intro fuel
  induction fuel with
  | zero => intro i result _; rfl
  | succ fuel ih =>
    intro i result hi
    have hlt : i < (words.length : Int) := by omega
    simp only [splitLoop, hlt, if_true]
    exact ih _ _ (by omega)

theorem splitIntoSections_eq_none_iff {α : Type} (words : List α) (size : Int) :
    splitIntoSections words size = none ↔ size ≤ 0 ∧ words ≠ [] := by
  constructor
  · intro h
    by_cases hsize : 0 < size
    · obtain ⟨secs, h1, -⟩ := splitIntoSections_spec words size hsize
      rw [h1] at h; cases h
    · refine ⟨by omega, ?_⟩
      rintro rfl
      simp [splitIntoSections, splitLoop] at h
  · rintro ⟨hsize, hwords⟩
    exact splitLoop_diverges words size hsize hwords _ 0 [] (le_refl 0)

/-- For an integer size and an integer loop variable the loop over numbers is
the loop over integers. -/
theorem splitLoopNumber_int {α : Type} (words : List α) (size : Int) :
    ∀ (fuel : Nat) (i : Int) (result : List (List α)),
      splitLoopNumber words (JsNumber.int size) fuel (JsNumber.int i) result
        = splitLoop words size fuel i result := by
  intro fuel
  induction fuel with
  | zero => intro i result; rfl
  | succ fuel ih =>
    intro i result
    have hslice : sliceNumber words (JsNumber.int i) (JsNumber.int (i + size))
        = slice words i (i + size) := rfl
    by_cases hi : i < (words.length : Int)
    · simp only [splitLoopNumber, splitLoop, ltLength, addNumber, hi, decide_True, if_true,
        hslice]
      exact ih _ _
    · simp only [splitLoopNumber, splitLoop, ltLength, hi, decide_False, if_false]
      rfl

theorem splitIntoSectionsNumber_int {α : Type} (words : List α) (size : Int) :
    splitIntoSectionsNumber words (NumField.number (JsNumber.int size))
      = splitIntoSections words size :=
  splitLoopNumber_int words size _ 0 []

/-- A `null` size is the size `0`. -/
theorem splitIntoSectionsNumber_null {α : Type} (words : List α) :
    splitIntoSectionsNumber words NumField.null = splitIntoSections words 0 :=
  splitLoopNumber_int words 0 _ 0 []

/-- For `-Infinity` and a non-empty array the loop never ends. -/
theorem splitLoopNumber_negInf_diverges {α : Type} (words : List α) (hwords : words ≠ []) :
    ∀ (fuel : Nat) (result : List (List α)),
      splitLoopNumber words JsNumber.negInf fuel (JsNumber.int 0) result = none ∧
      splitLoopNumber words JsNumber.negInf fuel JsNumber.negInf result = none := by
  have hlen : 0 < words.length := List.length_pos.mpr hwords
  have h0 : ((0 : Int) < (words.length : Int)) := by omega
  intro fuel
  induction fuel with
  | zero => intro result; exact ⟨rfl, rfl⟩
  | succ fuel ih =>
    intro result
    constructor
    · simp only [splitLoopNumber, ltLength, addNumber, h0, decide_True, if_true]
      exact (ih _).2
    · simp only [splitLoopNumber, ltLength, addNumber, if_true]
      exact (ih _).2

/-- What `splitIntoSections` returns for a size that is not finite: nothing
for an empty array; for a non-empty array one empty section for `NaN`, the
whole array as one section for `Infinity`, and no result for `-Infinity`. -/
theorem splitIntoSectionsNumber_nonfinite {α : Type} (words : List α) :
    splitIntoSectionsNumber ([] : List α) (NumField.number JsNumber.nan) = some [] ∧
    splitIntoSectionsNumber ([] : List α) (NumField.number JsNumber.posInf) = some [] ∧
    splitIntoSectionsNumber ([] : List α) (NumField.number JsNumber.negInf) = some [] ∧
    (words ≠ [] →
      splitIntoSectionsNumber words (NumField.number JsNumber.nan) = some [[]] ∧
      splitIntoSectionsNumber words (NumField.number JsNumber.posInf) = some [words] ∧
      splitIntoSectionsNumber words (NumField.number JsNumber.negInf) = none) := by
  refine ⟨rfl, rfl, rfl, ?_⟩
  intro hwords
  have hlen : 0 < words.length := List.length_pos.mpr hwords
  have h0 : ((0 : Int) < (words.length : Int)) := by omega
  obtain ⟨m, hm⟩ : ∃ m, words.length + 1 = m + 1 + 1 := ⟨words.length - 1, by omega⟩
  refine ⟨?_, ?_, (splitLoopNumber_negInf_diverges words hwords _ _).1⟩
  · simp only [splitIntoSectionsNumber, toNumber, hm]
    simp [splitLoopNumber, ltLength, addNumber, sliceNumber, clampIndex, h0]
  · simp only [splitIntoSectionsNumber, toNumber, hm]
    simp [splitLoopNumber, ltLength, addNumber, sliceNumber, clampIndex, h0]

/-! ## Sectioning: count, sizes and partition -/

/-- C1: for a word list of length `L` and a positive integer size `S`,
`splitIntoSections` returns (with the fuel of the definition and with any
larger fuel) exactly `ceil(L / S)` sections, which is `(L + S - 1) / S`; every
section that is not the last has exactly `S` words, every section has between
1 and `S` words, and an empty word list gives no sections. -/
theorem splitIntoSections_count_and_sizes {α : Type} (words : List α) (size : Int)
    (hsize : 0 < size) :
    ∃ secs, splitIntoSections words size = some secs ∧
      (∀ fuel : Nat, words.length < fuel → splitLoop words size fuel 0 [] = some secs) ∧
      (secs.length : Int) = ⌈((words.length : ℚ) / (size : ℚ))⌉ ∧
      (secs.length : Int) = ((words.length : Int) + size - 1) / size ∧
      (∀ (k : Nat) (h : k < secs.length), k + 1 < secs.length →
        (secs[k].length : Int) = size) ∧
      (∀ (k : Nat) (h : k < secs.length),
        1 ≤ secs[k].length ∧ (secs[k].length : Int) ≤ size) ∧
      (words.length = 0 → secs = []) := by
  obtain ⟨secs, h1, h2, -, h4, h5⟩ := splitIntoSections_spec words size hsize
  have hS : 0 < size.toNat := by omega
  have hcast : ((size.toNat : Nat) : Int) = size := Int.toNat_of_nonneg (by omega)
  have hdiv : (secs.length : Int) = ((words.length : Int) + size - 1) / size := by
    rw [h4, Int.natCast_ediv, Nat.cast_sub (by omega)]
    push_cast
    rw [hcast]
    rfl
  refine ⟨secs, h1, h2, ?_, hdiv, ?_, ?_, ?_⟩
  · have hle : (secs.length : Int) * size ≤ (words.length : Int) + size - 1 := by
      rw [hdiv]; exact Int.ediv_mul_le _ (by omega)
    have hlt : (words.length : Int) + size - 1 < ((secs.length : Int) + 1) * size := by
      rw [hdiv]; exact Int.lt_ediv_add_one_mul_self _ hsize
    have hq : (0 : ℚ) < (size : ℚ) := by exact_mod_cast hsize
    symm
    rw [Int.ceil_eq_iff]
    constructor
    · rw [lt_div_iff₀ hq]
      have : ((secs.length : Int) - 1) * size < (words.length : Int) := by nlinarith
      exact_mod_cast this
    · rw [div_le_iff₀ hq]
      have : (words.length : Int) ≤ (secs.length : Int) * size := by nlinarith
      exact_mod_cast this
  · intro k h hk
    rw [h4] at hk
    have hmul : (k + 2) * size.toNat ≤ words.length + size.toNat - 1 :=
      (Nat.le_div_iff_mul_le hS).mp hk
    rw [Nat.add_mul] at hmul
    have hmin : min size.toNat (words.length - k * size.toNat) = size.toNat := by omega
    rw [h5 k h, hmin]
    exact hcast
  · intro k h
    have hk : k + 1 ≤ (words.length + size.toNat - 1) / size.toNat := by rw [← h4]; exact h
    have hmul : (k + 1) * size.toNat ≤ words.length + size.toNat - 1 :=
      (Nat.le_div_iff_mul_le hS).mp hk
    rw [Nat.add_mul] at hmul
    rw [h5 k h]
    constructor
    · omega
    · rw [← hcast]; push_cast; omega
  · intro h0
    have : secs.length = 0 := by
      rw [h4, h0, Nat.zero_add, Nat.div_eq_of_lt (by omega)]
    exact List.length_eq_zero.mp this

theorem splitIntoSections_count_and_sizes_witness :
    (0 : Int) < 2 ∧
    ∃ secs, splitIntoSections ["a", "b", "c", "d", "e"] 2 = some secs ∧
      (∀ fuel : Nat, ["a", "b", "c", "d", "e"].length < fuel →
        splitLoop ["a", "b", "c", "d", "e"] 2 fuel 0 [] = some secs) ∧
      (secs.length : Int) = ⌈((["a", "b", "c", "d", "e"].length : ℚ) / ((2 : Int) : ℚ))⌉ ∧
      (secs.length : Int) = ((["a", "b", "c", "d", "e"].length : Int) + 2 - 1) / 2 ∧
      (∀ (k : Nat) (h : k < secs.length), k + 1 < secs.length →
        (secs[k].length : Int) = 2) ∧
      (∀ (k : Nat) (h : k < secs.length),
        1 ≤ secs[k].length ∧ (secs[k].length : Int) ≤ 2) ∧
      (["a", "b", "c", "d", "e"].length = 0 → secs = []) :=
  ⟨by decide, splitIntoSections_count_and_sizes ["a", "b", "c", "d", "e"] 2 (by decide)⟩

/-- C2: for a positive integer size the sections returned by
`splitIntoSections` concatenate, in order, to exactly the original word
list. -/
theorem splitIntoSections_partition {α : Type} (words : List α) (size : Int)
    (hsize : 0 < size) :
    ∃ secs, splitIntoSections words size = some secs ∧ secs.flatten = words := by
  obtain ⟨secs, h1, -, h3, -⟩ := splitIntoSections_spec words size hsize
  exact ⟨secs, h1, h3⟩

theorem splitIntoSections_partition_witness :
    (0 : Int) < 2 ∧
    ∃ secs, splitIntoSections ["a", "b", "c", "d", "e"] 2 = some secs ∧
      secs.flatten = ["a", "b", "c", "d", "e"] :=
  ⟨by decide, splitIntoSections_partition ["a", "b", "c", "d", "e"] 2 (by decide)⟩

/-! ## Loading a text of whitespace -/

theorem replaceRuns_true_whitespace (cs : List Char) (h : ∀ c ∈ cs, isWhiteSpace c = true) :
    replaceRuns true cs = [] := by
  induction cs with
  | nil => rfl
  | cons c cs ih =>
    have hc : isWhiteSpace c = true := h c (List.mem_cons_self c cs)
    simp only [replaceRuns, hc, if_true]
    exact ih (fun d hd => h d (List.mem_cons_of_mem c hd))

theorem cleanText_whitespace (text : String) (h : ∀ c ∈ text.data, isWhiteSpace c = true) :
    cleanText text = [] := by
  unfold cleanText
  cases hd : text.data with
  | nil => rfl
  | cons c cs =>
    rw [hd] at h
    have hc : isWhiteSpace c = true := h c (List.mem_cons_self c cs)
    simp only [replaceRuns, hc, if_true]
    rw [replaceRuns_true_whitespace cs (fun d hd => h d (List.mem_cons_of_mem c hd))]
    rfl

/-- A text of whitespace only, the empty text included, has the one word `""`. -/
theorem textWords_whitespace (text : String) (h : ∀ c ∈ text.data, isWhiteSpace c = true) :
    textWords text = [""] := by
  unfold textWords
  rw [cleanText_whitespace text h]
  rfl

/-- For every state with a positive integer section size and every text of
whitespace only, `loadText` leaves one word, the empty string, in one section. -/
theorem loadText_whitespace (s : AppState) (text : String) (size : Int)
    (hfield : s.settings.sectionSize = NumField.number (JsNumber.int size))
    (hsize : 0 < size) (h : ∀ c ∈ text.data, isWhiteSpace c = true) :
    ∃ s1, loadText s text = some s1 ∧ s1.words = [""] ∧ s1.sections = [[""]] := by
  obtain ⟨secs, h1, -, h3, h4, h5⟩ := splitIntoSections_spec [""] size hsize
  have hlen : secs.length = 1 := by
    rw [h4]
    have e : [""].length + size.toNat - 1 = size.toNat := by
      simp
    rw [e, Nat.div_self (by omega)]
  have hsecs : secs = [[""]] := by
    match secs, hlen, h3 with
    | [sec], _, h3 => simpa using h3
  refine ⟨{ s with words := [""], sections := secs, currentSectionIndex := 0,
                   currentWordIndex := 0 }, ?_, rfl, hsecs⟩
  simp only [loadText, textWords_whitespace text h, hfield, splitIntoSectionsNumber_int, h1]

/-- C3: `loadText` of a text of whitespace only, and of the empty text, leaves
a word sequence of length 1 (the empty string) and one section, not an empty
word sequence. -/
theorem loadText_whitespace_only_has_one_word :
    (loadText (initialState none) " \t\n ").map (fun s => (s.words, s.sections))
      = some ([""], [[""]]) ∧
    (loadText (initialState none) "").map (fun s => (s.words.length, s.sections.length))
      = some (1, 1) := by
  decide

/-! ## Stepping forward during playback -/

/-- C4: when playback is on and the mode is `reading`, `nextWord` keeps the
sections and the section index; below the last index of the current section it
adds one to the word index and playback stays on; otherwise the word index is
unchanged and playback is turned off.  A word index that is not past the last
word is not moved past it. -/
theorem nextWord_playing_reading (s : AppState) (hplay : s.isPlaying = true)
    (hmode : s.mode = Mode.reading) :
    (nextWord s).currentSectionIndex = s.currentSectionIndex ∧
    (nextWord s).sections = s.sections ∧
    (s.currentWordIndex < ((getCurrentSectionWords s).length : Int) - 1 →
      (nextWord s).currentWordIndex = s.currentWordIndex + 1 ∧
      (nextWord s).isPlaying = true) ∧
    (¬ s.currentWordIndex < ((getCurrentSectionWords s).length : Int) - 1 →
      (nextWord s).currentWordIndex = s.currentWordIndex ∧
      (nextWord s).isPlaying = false) ∧
    (s.currentWordIndex ≤ ((getCurrentSectionWords s).length : Int) - 1 →
      (nextWord s).currentWordIndex ≤ ((getCurrentSectionWords (nextWord s)).length : Int) - 1) := by
  have key : nextWord s = savePosition
      (if s.currentWordIndex < ((getCurrentSectionWords s).length : Int) - 1 then
        scheduleNext (renderWord { s with currentWordIndex := s.currentWordIndex + 1 })
      else { s with isPlaying := false }) := by
    simp [nextWord, hplay, hmode]
  rw [key]
  by_cases hlt : s.currentWordIndex < ((getCurrentSectionWords s).length : Int) - 1
  · simp only [hlt, if_true]
    cases hres : s.settings.resumeEnabled <;>
      simp [savePosition, saveSettings, scheduleNext, renderWord, getCurrentSectionWords,
        hres, hplay] <;>
      (intro _; simp [getCurrentSectionWords] at hlt; omega)
  · simp only [hlt, if_false]
    cases hres : s.settings.resumeEnabled <;>
      simp [savePosition, saveSettings, getCurrentSectionWords, hres]

theorem nextWord_playing_reading_witness :
    samplePlaying.isPlaying = true ∧ samplePlaying.mode = Mode.reading ∧
    (nextWord samplePlaying).currentSectionIndex = samplePlaying.currentSectionIndex ∧
    (nextWord samplePlaying).sections = samplePlaying.sections ∧
    (samplePlaying.currentWordIndex < ((getCurrentSectionWords samplePlaying).length : Int) - 1 →
      (nextWord samplePlaying).currentWordIndex = samplePlaying.currentWordIndex + 1 ∧
      (nextWord samplePlaying).isPlaying = true) ∧
    (¬ samplePlaying.currentWordIndex
        < ((getCurrentSectionWords samplePlaying).length : Int) - 1 →
      (nextWord samplePlaying).currentWordIndex = samplePlaying.currentWordIndex ∧
      (nextWord samplePlaying).isPlaying = false) ∧
    (samplePlaying.currentWordIndex ≤ ((getCurrentSectionWords samplePlaying).length : Int) - 1 →
      (nextWord samplePlaying).currentWordIndex
        ≤ ((getCurrentSectionWords (nextWord samplePlaying)).length : Int) - 1) :=
  ⟨rfl, rfl, nextWord_playing_reading samplePlaying rfl rfl⟩

/-! ## The preset table -/

/-- C8: `mapPresetToDelay` is a function of its argument alone: `slow` gives
500, `medium` 250, `fast` 150, `storm` 80 and every other preset 250; in every
state whose preset is `fast`, `applySettings` sets the delay to 150. -/
theorem mapPresetToDelay_table :
    mapPresetToDelay "slow" = 500 ∧ mapPresetToDelay "medium" = 250 ∧
    mapPresetToDelay "fast" = 150 ∧ mapPresetToDelay "storm" = 80 ∧
    (∀ preset : String, preset ≠ "slow" → preset ≠ "medium" → preset ≠ "fast" →
      preset ≠ "storm" → mapPresetToDelay preset = 250) ∧
    (∀ s : AppState, s.settings.speedPreset = "fast" →
      (applySettings s).settings.speedMs = NumField.number (JsNumber.int 150)) := by
  refine ⟨by decide, by decide, by decide, by decide, ?_, ?_⟩
  · intro preset h1 h2 h3 h4
    simp [mapPresetToDelay, h1, h2, h3, h4]
  · intro s h
    simp only [applySettings, h]
    decide

theorem mapPresetToDelay_table_witness :
    mapPresetToDelay "turbo" = 250 ∧
    (applySettings { initialState none with
      settings := { defaultSettings with
        speedPreset := "fast",
        speedMs := NumField.number (JsNumber.int 700) } }).settings.speedMs
      = NumField.number (JsNumber.int 150) :=
  ⟨mapPresetToDelay_table.2.2.2.2.1 "turbo" (by decide) (by decide) (by decide) (by decide),
   mapPresetToDelay_table.2.2.2.2.2 _ rfl⟩

/-! ## Saving and loading the settings -/

/-- After `saveSettings` in a state `s`, `loadSettings` in a reader whose
storage holds what was saved gives the settings of `s` with the two numeric
fields as `JSON` reads them back. -/
theorem loadSettings_after_saveSettings (s t : AppState) :
    (loadSettings { t with storage := (saveSettings s).storage }).settings
      = { s.settings with
          speedMs := jsonNumber s.settings.speedMs,
          sectionSize := jsonNumber s.settings.sectionSize } := by
  obtain ⟨_, _, _, _, _, _, _, ⟨_, _, _, _, _, resume⟩, _, _, _, _⟩ := s
  cases resume <;> simp [loadSettings, saveSettings, stringify, assignSettings]

/-- C7 as stated fails: a settings record with the delay `NaN` and the section
size `Infinity` is stored with `null` for both, so `loadSettings` in a reader
with the default settings restores `null` for both and the restored record
differs from the saved one. -/
theorem saveSettings_loadSettings_loses_nonfinite :
    sampleNonFinite.settings.speedMs = NumField.number JsNumber.nan ∧
    sampleNonFinite.settings.sectionSize = NumField.number JsNumber.posInf ∧
    (loadSettings (initialState (saveSettings sampleNonFinite).storage)).settings.speedMs
      = NumField.null ∧
    (loadSettings (initialState (saveSettings sampleNonFinite).storage)).settings.sectionSize
      = NumField.null ∧
    (loadSettings (initialState (saveSettings sampleNonFinite).storage)).settings
      ≠ sampleNonFinite.settings := by
  decide

/-- C7, amended: for every settings record whose numeric delay and section
size are finite numbers, after `saveSettings` in a state `s` with that record,
`loadSettings` in a reader whose storage holds what was saved (a reader with
the default settings in particular) gives a settings record equal to the one
of `s` in all six fields. -/
theorem saveSettings_loadSettings_roundtrip_finite (s t : AppState) (delay size : Int)
    (hdelay : s.settings.speedMs = NumField.number (JsNumber.int delay))
    (hsize : s.settings.sectionSize = NumField.number (JsNumber.int size)) :
    (loadSettings (initialState (saveSettings s).storage)).settings = s.settings ∧
    (loadSettings { t with storage := (saveSettings s).storage }).settings = s.settings := by
  have key : ∀ u : AppState,
      (loadSettings { u with storage := (saveSettings s).storage }).settings = s.settings := by
    intro u
    rw [loadSettings_after_saveSettings, hdelay, hsize]
    obtain ⟨_, _, _, _, _, _, _, ⟨_, _, _, _, _, _⟩, _, _, _, _⟩ := s
    simp only [jsonNumber] at *
    subst hdelay hsize
    rfl
  exact ⟨key (initialState none), key t⟩

theorem saveSettings_loadSettings_roundtrip_finite_witness :
    samplePlaying.settings.speedMs = NumField.number (JsNumber.int 250) ∧
    samplePlaying.settings.sectionSize = NumField.number (JsNumber.int 2) ∧
    (loadSettings (initialState (saveSettings samplePlaying).storage)).settings
      = samplePlaying.settings ∧
    (loadSettings { startup with storage := (saveSettings samplePlaying).storage }).settings
      = samplePlaying.settings :=
  ⟨rfl, rfl, saveSettings_loadSettings_roundtrip_finite samplePlaying startup 250 2 rfl rfl⟩

/-! ## Startup -/

/-- After `init` the reader holds the words of the welcome text and the cursor
is at the first word of the first section, for every stored state and every
URL fragment. -/
theorem loadText_eq_some (s s1 : AppState) (text : String) (h : loadText s text = some s1) :
    ∃ secs, splitIntoSectionsNumber (textWords text) s.settings.sectionSize = some secs ∧
      s1 = { s with words := textWords text, sections := secs,
                    currentSectionIndex := 0, currentWordIndex := 0 } := by
  simp only [loadText] at h
  cases hsplit : splitIntoSectionsNumber (textWords text) s.settings.sectionSize with
  | none => simp [hsplit] at h
  | some secs =>
    simp only [hsplit, Option.some.injEq] at h
    exact ⟨secs, rfl, h.symm⟩

theorem loadSettings_frame (s : AppState) :
    (loadSettings s).isPlaying = s.isPlaying ∧ (loadSettings s).mode = s.mode ∧
    (loadSettings s).pending = s.pending := by
  unfold loadSettings
  refine ⟨?_, ?_, ?_⟩ <;> (repeat' split) <;> (try simp only []) <;> (repeat' split) <;> rfl

theorem init_result (storage : Option StoredText) (hash : String) (s : AppState)
    (h : init storage hash = some s) :
    s.words = textWords welcomeText ∧ s.currentSectionIndex = 0 ∧ s.currentWordIndex = 0 ∧
    s.isPlaying = false ∧ s.mode = Mode.reading ∧ s.pending = 0 := by
  simp only [init] at h
  have hbase : (applySettings (loadSettings (initialState storage))).isPlaying = false ∧
      (applySettings (loadSettings (initialState storage))).mode = Mode.reading ∧
      (applySettings (loadSettings (initialState storage))).pending = 0 := by
    obtain ⟨h1, h2, h3⟩ := loadSettings_frame (initialState storage)
    exact ⟨h1, h2, h3⟩
  cases h3 : attachEvents (applySettings (loadSettings (initialState storage))) hash with
  | none => simp [h3] at h
  | some s3 =>
    have hs3 : s3.isPlaying = false ∧ s3.mode = Mode.reading ∧ s3.pending = 0 := by
      unfold attachEvents at h3
      split at h3
      · cases hl : loadText (applySettings (loadSettings (initialState storage))) hash with
        | none => simp [hl] at h3
        | some s1 =>
          simp only [hl, Option.some.injEq] at h3
          obtain ⟨secs, -, rfl⟩ := loadText_eq_some _ _ _ hl
          subst h3
          exact hbase
      · simp only [Option.some.injEq] at h3
        subst h3
        exact hbase
    simp only [h3] at h
    cases h4 : loadText s3 welcomeText with
    | none => simp [h4] at h
    | some s4 =>
      simp only [h4, Option.some.injEq] at h
      obtain ⟨secs, -, rfl⟩ := loadText_eq_some _ _ _ h4
      subst h
      exact ⟨rfl, rfl, rfl, hs3⟩

/-- C5: with the URL fragment `hello world` at startup, `attachEvents` loads
the two words of the fragment, and `init` then completes with the 19 words of
the welcome text instead of them. -/
theorem init_discards_fragment_text :
    (attachEvents (applySettings (loadSettings (initialState none))) "hello world").map
      (fun s => s.words) = some ["hello", "world"] ∧
    (init none "hello world").map (fun s => s.words)
      = some ["Welcome", "to", "Anchor", "This", "is", "a", "minimal", "one", "word", "at",
          "a", "time", "reader", "Tap", "the", "anchor", "icon", "for", "help"] ∧
    (init none "hello world").map (fun s => s.sections)
      ≠ (splitIntoSectionsNumber (textWords "hello world") defaultSettings.sectionSize) := by
  decide

/-- C6: playing the welcome text from startup up to its sixth word stores the
position (section 0, word 5) with resume enabled; at the next startup with
that stored state `loadSettings` restores the cursor (0, 5), and `init` then
completes with the cursor at (0, 0) on the first word. -/
theorem init_discards_saved_position :
    (run startup [Event.togglePlayPause, Event.timerFire, Event.timerFire, Event.timerFire,
      Event.timerFire, Event.timerFire]).map (fun s => s.storage)
      = some (some (stringify defaultSettings 0 5)) ∧
    (loadSettings (initialState (some (stringify defaultSettings 0 5)))).settings.resumeEnabled
      = true ∧
    (loadSettings (initialState (some (stringify defaultSettings 0 5)))).currentSectionIndex
      = 0 ∧
    (loadSettings (initialState (some (stringify defaultSettings 0 5)))).currentWordIndex
      = 5 ∧
    (init (some (stringify defaultSettings 0 5)) "").map
      (fun s => (s.currentSectionIndex, s.currentWordIndex, s.wordEl))
      = some (0, 0, "Welcome") := by
  decide

/-! ## The cursor stays on an existing word -/

theorem splitOnSpace_ne_nil (cs : List Char) : splitOnSpace cs ≠ [] := by
  induction cs with
  | nil => simp [splitOnSpace]
  | cons c cs ih =>
    unfold splitOnSpace
    split
    · simp
    · split <;> simp

theorem textWords_length_pos (text : String) : 0 < (textWords text).length := by
  unfold textWords
  rw [List.length_map]
  exact List.length_pos.mpr (splitOnSpace_ne_nil _)

theorem index_natCast {α : Type} (xs : List α) (k : Nat) : index xs (k : Int) = xs[k]? := by
  unfold index
  have h : ¬ ((k : Int) < 0) := by omega
  simp [h]

theorem index_isSome_iff {α : Type} (xs : List α) (i : Int) :
    (index xs i).isSome = true ↔ 0 ≤ i ∧ i < (xs.length : Int) := by
  unfold index
  by_cases h : i < 0
  · simp only [h, if_true]
    constructor
    · intro h2; cases h2
    · intro h2; omega
  · simp only [h, if_false, List.get?_eq_getElem?]
    rw [Option.isSome_iff_exists]
    constructor
    · rintro ⟨a, ha⟩
      have := (List.getElem?_eq_some.mp ha).1
      omega
    · intro h2
      have hlt : i.toNat < xs.length := by omega
      exact ⟨xs[i.toNat], List.getElem?_eq_getElem hlt⟩

/-- The validity of the cursor is the existence of the indexed word. -/
theorem cursorValid_iff (s : AppState) :
    cursorValid s ↔
      ∃ sec w, index s.sections s.currentSectionIndex = some sec ∧
        index sec s.currentWordIndex = some w := by
  unfold cursorValid getCurrentSectionWords
  constructor
  · rintro ⟨h1, h2, h3, h4⟩
    obtain ⟨sec, hsec⟩ := Option.isSome_iff_exists.mp ((index_isSome_iff _ _).mpr ⟨h1, h2⟩)
    rw [hsec] at h4
    obtain ⟨w, hw⟩ := Option.isSome_iff_exists.mp ((index_isSome_iff _ _).mpr ⟨h3, h4⟩)
    exact ⟨sec, w, hsec, hw⟩
  · rintro ⟨sec, w, hsec, hw⟩
    have h12 := (index_isSome_iff _ _).mp (by rw [hsec]; rfl)
    have h34 := (index_isSome_iff _ _).mp (by rw [hw]; rfl)
    rw [hsec]
    exact ⟨h12.1, h12.2, h34.1, h34.2⟩

/-- A state with the same sections and section index, and a word index within
the current section, has a valid cursor when the section index is valid. -/
theorem cursorValid_of_frame (s t : AppState) (hsec : t.sections = s.sections)
    (hidx : t.currentSectionIndex = s.currentSectionIndex)
    (h1 : 0 ≤ s.currentSectionIndex) (h2 : s.currentSectionIndex < (s.sections.length : Int))
    (h3 : 0 ≤ t.currentWordIndex)
    (h4 : t.currentWordIndex < ((getCurrentSectionWords s).length : Int)) :
    cursorValid t := by
  unfold cursorValid getCurrentSectionWords at *
  rw [hsec, hidx]
  exact ⟨h1, h2, h3, h4⟩

theorem savePosition_frame (s : AppState) :
    (savePosition s).sections = s.sections ∧
    (savePosition s).currentSectionIndex = s.currentSectionIndex ∧
    (savePosition s).currentWordIndex = s.currentWordIndex ∧
    (savePosition s).isPlaying = s.isPlaying ∧ (savePosition s).mode = s.mode ∧
    (savePosition s).pending = s.pending := by
  unfold savePosition saveSettings
  split <;> exact ⟨rfl, rfl, rfl, rfl, rfl, rfl⟩

theorem nextWord_frame (s : AppState) :
    (nextWord s).sections = s.sections ∧
    (nextWord s).currentSectionIndex = s.currentSectionIndex ∧
    ((nextWord s).currentWordIndex = s.currentWordIndex ∨
      (s.currentWordIndex < ((getCurrentSectionWords s).length : Int) - 1 ∧
        (nextWord s).currentWordIndex = s.currentWordIndex + 1)) ∧
    (nextWord s).pending ≤ s.pending + 1 := by
  unfold nextWord
  split
  · exact ⟨rfl, rfl, Or.inl rfl, by omega⟩
  · simp only []
    obtain ⟨h1, h2, h3, -, -, h6⟩ := savePosition_frame
      (if s.currentWordIndex < ((getCurrentSectionWords s).length : Int) - 1 then
        scheduleNext (renderWord { s with currentWordIndex := s.currentWordIndex + 1 })
      else { s with isPlaying := false })
    rw [h1, h2, h3, h6]
    split
    · rename_i hlt
      exact ⟨rfl, rfl, Or.inr ⟨hlt, rfl⟩, le_refl _⟩
    · refine ⟨rfl, rfl, Or.inl rfl, ?_⟩
      show s.pending ≤ s.pending + 1
      omega

theorem prevWord_frame (s : AppState) :
    (prevWord s).sections = s.sections ∧
    (prevWord s).currentSectionIndex = s.currentSectionIndex ∧
    (0 < s.currentWordIndex → (prevWord s).currentWordIndex = s.currentWordIndex - 1) ∧
    (¬ 0 < s.currentWordIndex → prevWord s = s) := by
  unfold prevWord
  by_cases h : s.currentWordIndex > 0
  · rw [if_pos h]
    obtain ⟨h1, h2, h3, -⟩ := savePosition_frame
      (renderWord { s with currentWordIndex := s.currentWordIndex - 1 })
    rw [h1, h2, h3]
    exact ⟨rfl, rfl, fun _ => rfl, fun hn => absurd h hn⟩
  · rw [if_neg h]
    exact ⟨rfl, rfl, fun hp => absurd hp h, fun _ => rfl⟩

theorem forwardClick_frame (s : AppState) :
    (forwardClick s).sections = s.sections ∧
    (forwardClick s).currentSectionIndex = s.currentSectionIndex ∧
    ((forwardClick s).currentWordIndex = s.currentWordIndex ∨
      (s.currentWordIndex < ((getCurrentSectionWords s).length : Int) - 1 ∧
        (forwardClick s).currentWordIndex = s.currentWordIndex + 1)) := by
  unfold forwardClick
  simp only []
  split
  · rename_i hlt
    obtain ⟨h1, h2, h3, -⟩ := savePosition_frame
      (renderWord { pauseStream s with currentWordIndex := (pauseStream s).currentWordIndex + 1 })
    rw [h1, h2, h3]
    exact ⟨rfl, rfl, Or.inr ⟨hlt, rfl⟩⟩
  · exact ⟨rfl, rfl, Or.inl rfl⟩

theorem section_exists_of_words (s : AppState)
    (h : 0 < (getCurrentSectionWords s).length) :
    0 ≤ s.currentSectionIndex ∧ s.currentSectionIndex < (s.sections.length : Int) := by
  unfold getCurrentSectionWords at h
  cases hsec : index s.sections s.currentSectionIndex with
  | none => rw [hsec] at h; simp at h
  | some sec => exact (index_isSome_iff _ _).mp (by rw [hsec]; rfl)

theorem loadText_cursorValid (s : AppState) (text : String) (size : Int)
    (hfield : s.settings.sectionSize = NumField.number (JsNumber.int size))
    (hsize : 0 < size) :
    ∃ s1, loadText s text = some s1 ∧ s1.currentSectionIndex = 0 ∧
      s1.currentWordIndex = 0 ∧ cursorValid s1 := by
  obtain ⟨secs, h1, -, -, h4, h5⟩ :=
    splitIntoSections_spec (textWords text) size hsize
  have hS : 0 < size.toNat := by omega
  have hL := textWords_length_pos text
  have hlen : 0 < secs.length := by
    rw [h4]
    apply Nat.div_pos
    · omega
    · exact hS
  have h0 := h5 0 hlen
  refine ⟨{ s with words := textWords text, sections := secs, currentSectionIndex := 0,
                   currentWordIndex := 0 }, ?_, rfl, rfl, ?_⟩
  · simp only [loadText, hfield, splitIntoSectionsNumber_int, h1]
  · unfold cursorValid getCurrentSectionWords
    have hidx : index secs (0 : Int) = some secs[0] := by
      have := index_natCast secs 0
      rw [List.getElem?_eq_getElem hlen] at this
      exact_mod_cast this
    simp only [hidx, Option.getD_some]
    refine ⟨le_refl _, by omega, le_refl _, ?_⟩
    rw [h0]
    simp only [Nat.zero_mul, Nat.sub_zero]
    omega

/-- C10: with a positive integer section size `loadText` returns with the cursor at
(0, 0) on an existing word; `nextWord`, `prevWord`, the forward step, the
backward step and a click on a word of the current section in Context View
take a cursor on an existing word of an existing section to such a cursor and
keep the section index; `prevWord` subtracts one from a word index above 0 and
otherwise changes nothing. -/
theorem cursor_valid_invariant (s : AppState) (text : String) (idx : Nat) :
    (∀ size : Int, s.settings.sectionSize = NumField.number (JsNumber.int size) → 0 < size →
      ∃ s1, loadText s text = some s1 ∧ s1.currentSectionIndex = 0 ∧
        s1.currentWordIndex = 0 ∧ cursorValid s1) ∧
    (cursorValid s →
      (cursorValid (nextWord s) ∧
        (nextWord s).currentSectionIndex = s.currentSectionIndex) ∧
      (cursorValid (prevWord s) ∧
        (prevWord s).currentSectionIndex = s.currentSectionIndex) ∧
      (cursorValid (forwardClick s) ∧
        (forwardClick s).currentSectionIndex = s.currentSectionIndex) ∧
      (cursorValid (backClick s) ∧
        (backClick s).currentSectionIndex = s.currentSectionIndex)) ∧
    ((idx : Int) < ((getCurrentSectionWords s).length : Int) →
      cursorValid (wordClick idx s) ∧
        (wordClick idx s).currentSectionIndex = s.currentSectionIndex ∧
        (wordClick idx s).currentWordIndex = (idx : Int)) ∧
    (0 < s.currentWordIndex → (prevWord s).currentWordIndex = s.currentWordIndex - 1) ∧
    (¬ 0 < s.currentWordIndex → prevWord s = s) := by
  refine ⟨loadText_cursorValid s text, ?_, ?_, (prevWord_frame s).2.2.1, (prevWord_frame s).2.2.2⟩
  · rintro ⟨h1, h2, h3, h4⟩
    refine ⟨⟨?_, (nextWord_frame s).2.1⟩, ⟨?_, (prevWord_frame s).2.1⟩,
      ⟨?_, (forwardClick_frame s).2.1⟩, ⟨?_, ?_⟩⟩
    · obtain ⟨g1, g2, g3, -⟩ := nextWord_frame s
      apply cursorValid_of_frame s _ g1 g2 h1 h2 <;> rcases g3 with g | ⟨g, g'⟩ <;> omega
    · obtain ⟨g1, g2, g3, g4⟩ := prevWord_frame s
      by_cases hp : 0 < s.currentWordIndex
      · have := g3 hp
        apply cursorValid_of_frame s _ g1 g2 h1 h2 <;> omega
      · rw [g4 hp]; exact ⟨h1, h2, h3, h4⟩
    · obtain ⟨g1, g2, g3⟩ := forwardClick_frame s
      apply cursorValid_of_frame s _ g1 g2 h1 h2 <;> rcases g3 with g | ⟨g, g'⟩ <;> omega
    · obtain ⟨g1, g2, g3, g4⟩ := prevWord_frame (pauseStream s)
      have e1 : (pauseStream s).sections = s.sections := rfl
      have e2 : (pauseStream s).currentSectionIndex = s.currentSectionIndex := rfl
      have e3 : (pauseStream s).currentWordIndex = s.currentWordIndex := rfl
      unfold backClick
      by_cases hp : 0 < (pauseStream s).currentWordIndex
      · have := g3 hp
        apply cursorValid_of_frame s _ (g1.trans e1) (g2.trans e2) h1 h2 <;> omega
      · rw [g4 hp]
        exact cursorValid_of_frame s _ e1 e2 h1 h2 (by omega) (by omega)
    · exact (prevWord_frame (pauseStream s)).2.1
  · intro hidx
    obtain ⟨h1, h2⟩ := section_exists_of_words s (by omega)
    refine ⟨cursorValid_of_frame s _ rfl rfl h1 h2 ?_ hidx, rfl, rfl⟩
    show (0 : Int) ≤ (idx : Int)
    omega

theorem cursor_valid_invariant_witness :
    samplePlaying.settings.sectionSize = NumField.number (JsNumber.int 2) ∧
    cursorValid samplePlaying ∧
    ((1 : Nat) : Int) < ((getCurrentSectionWords samplePlaying).length : Int) ∧
    (∃ s1, loadText samplePlaying "a b c" = some s1 ∧ s1.currentSectionIndex = 0 ∧
      s1.currentWordIndex = 0 ∧ cursorValid s1) ∧
    cursorValid (nextWord samplePlaying) ∧ cursorValid (prevWord samplePlaying) ∧
    cursorValid (forwardClick samplePlaying) ∧ cursorValid (wordClick 1 samplePlaying) :=
  ⟨rfl, by decide, by decide,
   (cursor_valid_invariant samplePlaying "a b c" 1).1 2 rfl (by decide),
   ((cursor_valid_invariant samplePlaying "a b c" 1).2.1 (by decide)).1.1,
   ((cursor_valid_invariant samplePlaying "a b c" 1).2.1 (by decide)).2.1.1,
   ((cursor_valid_invariant samplePlaying "a b c" 1).2.1 (by decide)).2.2.1.1,
   ((cursor_valid_invariant samplePlaying "a b c" 1).2.2.1 (by decide)).1⟩

/-! ## Pending callbacks -/

theorem init_eq_startup : init none "" = some startup := by decide

theorem loadHelpTopic_pending (key : String) (s s1 : AppState)
    (h : loadHelpTopic key s = some s1) : s1.pending = s.pending + 1 := by
  simp only [loadHelpTopic] at h
  cases hl : loadText s ((helpTexts key).getD "") with
  | none => simp [hl] at h
  | some s2 =>
    obtain ⟨secs, -, rfl⟩ := loadText_eq_some _ _ _ hl
    simp only [hl, Option.some.injEq] at h
    subst h
    rfl

/-- One event keeps the number of pending callbacks at most one, when the
event does not start playback or no callback is pending. -/
theorem step_pending_le_one (s s1 : AppState) (e : Event) (hinv : s.pending ≤ 1)
    (hsp : startsPlayback s e = true → s.pending = 0) (h : step s e = some s1) :
    s1.pending ≤ 1 := by
  cases e with
  | togglePlayPause =>
    simp only [step, Option.some.injEq] at h
    subst h
    unfold togglePlayPause
    by_cases hmode : s.mode = Mode.reading
    · cases hplay : s.isPlaying
      · have h0 : s.pending = 0 := hsp (by simp [startsPlayback, hmode, hplay])
        simp [hmode, hplay, scheduleNext, h0]
      · simp [hmode, hplay, hinv]
    · simp [hmode, hinv]
  | wordClick idx =>
    simp only [step, Option.some.injEq] at h
    subst h
    have h0 : s.pending = 0 := hsp rfl
    show s.pending + 1 ≤ 1
    omega
  | loadHelpTopic key =>
    have h0 : s.pending = 0 := hsp rfl
    have := loadHelpTopic_pending key s s1 h
    omega
  | timerFire =>
    simp only [step] at h
    split at h
    · cases h
    · simp only [Option.some.injEq] at h
      subst h
      have := (nextWord_frame { s with pending := s.pending - 1 }).2.2.2
      have e : ({ s with pending := s.pending - 1 } : AppState).pending = s.pending - 1 := rfl
      omega

theorem run_pending_le_one (evs : List Event) :
    ∀ s : AppState, s.pending ≤ 1 → spaced s evs = true →
      ∀ s1, run s evs = some s1 → s1.pending ≤ 1 := by
  induction evs with
  | nil =>
    intro s hinv _ s1 h
    simp only [run, Option.some.injEq] at h
    subst h
    exact hinv
  | cons e es ih =>
    intro s hinv hsp s1 h
    simp only [run] at h
    simp only [spaced, Bool.and_eq_true, Bool.or_eq_true, Bool.not_eq_true', beq_iff_eq] at hsp
    cases hstep : step s e with
    | none => simp [hstep] at h
    | some s2 =>
      simp only [hstep] at h hsp
      have hse : startsPlayback s e = true → s.pending = 0 := by
        intro hst
        rcases hsp.1 with hf | h0
        · rw [hst] at hf; cases hf
        · exact h0
      exact ih s2 (step_pending_le_one s s2 e hinv hse hstep) hsp.2 s1 h

/-- C9 as stated fails: from startup, three presses of the play or pause
button within one delay (play, pause, play) leave two pending `nextWord`
callbacks, and after both have fired two are pending again. -/
theorem three_toggles_two_pending :
    (run startup [Event.togglePlayPause]).map (fun s => s.pending) = some 1 ∧
    (run startup [Event.togglePlayPause, Event.togglePlayPause]).map (fun s => s.pending)
      = some 1 ∧
    ((init none "").bind (fun s0 => run s0
      [Event.togglePlayPause, Event.togglePlayPause, Event.togglePlayPause])).map
        (fun s => s.pending) = some 2 ∧
    ((init none "").bind (fun s0 => run s0
      [Event.togglePlayPause, Event.togglePlayPause, Event.togglePlayPause,
       Event.timerFire, Event.timerFire])).map
        (fun s => (s.pending, s.currentWordIndex)) = some (2, 2) := by
  decide

/-- C9, amended: in every state reached from startup by play or pause toggles,
clicks on words, help-topic loads and timer firings, at most one `nextWord`
callback is pending, provided every event that starts playback (a toggle from
paused to playing in reading mode, a click on a word, a help-topic load)
occurs when no callback is pending. -/
theorem pending_le_one_of_spaced (storage : Option StoredText) (hash : String)
    (s0 : AppState) (evs : List Event) (h0 : init storage hash = some s0)
    (hsp : spaced s0 evs = true) :
    ∀ s, run s0 evs = some s → s.pending ≤ 1 := by
  have hp : s0.pending = 0 := (init_result storage hash s0 h0).2.2.2.2.2
  exact run_pending_le_one evs s0 (by omega) hsp

theorem pending_le_one_of_spaced_witness :
    init none "" = some startup ∧
    spaced startup [Event.togglePlayPause, Event.timerFire, Event.timerFire,
      Event.togglePlayPause, Event.timerFire, Event.togglePlayPause, Event.timerFire] = true ∧
    (run startup [Event.togglePlayPause, Event.timerFire, Event.timerFire,
      Event.togglePlayPause, Event.timerFire, Event.togglePlayPause, Event.timerFire]).map
        (fun s => (s.pending, s.currentWordIndex)) = some (1, 3) ∧
    ∀ s, run startup [Event.togglePlayPause, Event.timerFire, Event.timerFire,
      Event.togglePlayPause, Event.timerFire, Event.togglePlayPause, Event.timerFire] = some s →
        s.pending ≤ 1 :=
  ⟨init_eq_startup, by decide, by decide,
   pending_le_one_of_spaced none "" startup _ init_eq_startup (by decide)⟩

end Anchor
